import Mathlib

/-!
Verification of the `tool-types` utility-type library.

The library consists of compile-time type-transformation utilities over a
structural type system.  We embed the fragment of that type system the
utilities operate on: object shapes (named properties carrying a value type,
an optionality flag and a read-only flag), arrays and tuples (carrying a
read-only flag), function types, promise types, string-literal types,
primitive types and unions.  Each utility from `src/source/index.d.ts` is
translated into a function on this embedding.

Modelling conventions, stated once here:
* A mapped type over `keyof T` is homomorphic: it preserves the optionality
  and read-only modifiers of `T` except where the mapped type edits them.
  The same applies to a mapped type over a type parameter constrained to
  `keyof T` (so `Pick` and the single-key projections inherit modifiers).
* A homomorphic mapped type applied to an array or tuple maps the element
  type(s) and applies the `readonly` / `-readonly` modifier to the
  read-only flag of the array or tuple; applied to a function or promise
  type it maps over their (empty) own-key set and produces the empty shape;
  applied to a primitive it returns the primitive; applied to a union it
  distributes over the members.  Promise methods are not modelled as own
  keys, and the optionality modifiers are modelled as no-ops on array and
  tuple element types.
* A union of string-literal key types (the result of indexing a mapped
  shape with `keyof T`) is represented as the list of selected key names;
  `never` entries vanish in the union.  The extra `undefined` member that
  strict null checking adds when indexing an optional property is not
  modelled.
* The special behaviour of `any` as the scrutinee of a conditional type
  (taking both branches) is not modelled; `any` simply fails patterns it
  does not match.
-/

namespace ToolTypes

mutual
/-- Types of the embedded structural type system. -/
inductive Ty where
  | prim (name : String)
  | lit (s : String)
  | any
  | never
  | undef
  | obj (fields : Fields)
  | arr (ro : Bool) (elem : Ty)
  | tup (ro : Bool) (elems : Tys)
  | func (params : Tys) (ret : Ty)
  | promise (t : Ty)
  | union (alts : Tys)

/-- Property lists of an object shape: each property has a name, an
optionality flag, a read-only flag and a value type. -/
inductive Fields where
  | nil
  | cons (name : String) (opt ro : Bool) (ty : Ty) (rest : Fields)

/-- Lists of types (tuple members, function parameters, union members). -/
inductive Tys where
  | nil
  | cons (head : Ty) (tail : Tys)
end

deriving instance DecidableEq for Ty, Fields, Tys

/-- Property names of a field list, in declaration order. -/
def namesF : Fields → List String
  | .nil => []
  | .cons n _ _ _ fs => n :: namesF fs

/-- Fields of a type: the properties of an object shape, nothing for other
types (their own-key sets are not modelled). -/
def fieldsOf : Ty → Fields
  | .obj fs => fs
  | _ => .nil

/-- Models `keyof T` as the list of property names. -/
def keysOf (t : Ty) : List String := namesF (fieldsOf t)

/-- Looks up a property by name, returning its (optionality, read-only,
value type) triple. -/
def findField : Fields → String → Option (Bool × Bool × Ty)
  | .nil, _ => none
  | .cons n o r t fs, k => if n = k then some (o, r, t) else findField fs k

/-- True when every property of the list is optional. -/
def allOptF : Fields → Bool
  | .nil => true
  | .cons _ o _ _ fs => o && allOptF fs

/-- Field list as a plain list of tuples (used to state equality of object
shapes up to property order). -/
def fieldsToList : Fields → List (String × Bool × Bool × Ty)
  | .nil => []
  | .cons n o r t fs => (n, o, r, t) :: fieldsToList fs

/-- Type list as a plain Lean list. -/
def tysToList : Tys → List Ty
  | .nil => []
  | .cons t ts => t :: tysToList ts

/-- Plain Lean list as a type list. -/
def listToTys : List Ty → Tys
  | [] => .nil
  | t :: ts => .cons t (listToTys ts)

/-- Concatenation of field lists. -/
def appendF : Fields → Fields → Fields
  | .nil, gs => gs
  | .cons n o r t fs, gs => .cons n o r t (appendF fs gs)

mutual
/-- Models the test `X extends object`: true for object shapes, arrays,
tuples, functions and promises; `never` extends everything; a union
extends `object` when all members do. -/
def isObjLike : Ty → Bool
  | .obj _ => true
  | .arr _ _ => true
  | .tup _ _ => true
  | .func _ _ => true
  | .promise _ => true
  | .never => true
  | .union ts => allObjLike ts
  | _ => false

/-- All members of a type list extend `object`. -/
def allObjLike : Tys → Bool
  | .nil => true
  | .cons t ts => isObjLike t && allObjLike ts
end

/-- Models the built-in `Pick<T, K>` for a list of keys `K ⊆ keyof T`:
rebuilds the selected properties in the order of `K`, inheriting the
optionality and read-only modifiers from `T`. -/
def pickFields (fs : Fields) : List String → Fields
  | [] => .nil
  | k :: ks =>
      match findField fs k with
      | some (o, r, t) => .cons k o r t (pickFields fs ks)
      | none => pickFields fs ks

/-- The built-in `Pick<T, K>` as a type. -/
def Pick (t : Ty) (ks : List String) : Ty := .obj (pickFields (fieldsOf t) ks)

/-- Models the built-in `Extract<A, B>` on unions of string-literal keys:
keeps the keys of `A` that are also in `B`, in the order of `A`. -/
def Extract (ks us : List String) : List String :=
  ks.filter fun k => decide (k ∈ us)

/-- Models the built-in `Exclude<A, B>` on unions of string-literal keys:
keeps the keys of `A` that are absent from `B`, in the order of `A`. -/
def Exclude (ks us : List String) : List String :=
  ks.filter fun k => !decide (k ∈ us)

/-- Sets the optionality flag of every property. -/
def setOptF (b : Bool) : Fields → Fields
  | .nil => .nil
  | .cons n _ r t fs => .cons n b r t (setOptF b fs)

/-- Sets the read-only flag of every property. -/
def setRoF (b : Bool) : Fields → Fields
  | .nil => .nil
  | .cons n o _ t fs => .cons n o b t (setRoF b fs)

/-- Models the built-in `Partial<T>`: every property becomes optional.  The
utilities below only apply it to object shapes; other types are returned
unchanged. -/
def PartialTy : Ty → Ty
  | .obj fs => .obj (setOptF true fs)
  | t => t

/-- Models the built-in `Required<T>`: every property becomes required.  The
utilities below only apply it to object shapes; other types are returned
unchanged. -/
def Required : Ty → Ty
  | .obj fs => .obj (setOptF false fs)
  | t => t

/-- Models a mapped type `{readonly [P in U]: T[P]}` applied to an
already-picked shape: forces the read-only flag on every property. -/
def roForce : Ty → Ty
  | .obj fs => .obj (setRoF true fs)
  | t => t

/-- Intersection of two property value types.  The utilities below only
ever intersect a property type with itself; distinct value types are
collapsed to `never` (as for disjoint primitives). -/
def tyMeet (t u : Ty) : Ty := if t = u then t else .never

/-- Left part of an object intersection: the properties of the left shape,
merged with the same-named properties of the right one.  A merged property
is optional when optional in both constituents and read-only when
read-only in either. -/
def mergeLeftF : Fields → Fields → Fields
  | .nil, _ => .nil
  | .cons n o r t fs, gs =>
      match findField gs n with
      | some (o2, r2, t2) => .cons n (o && o2) (r || r2) (tyMeet t t2) (mergeLeftF fs gs)
      | none => .cons n o r t (mergeLeftF fs gs)

/-- Keeps the fields whose names are not in the given list. -/
def filterNotIn : Fields → List String → Fields
  | .nil, _ => .nil
  | .cons n o r t fs, ns =>
      if n ∈ ns then filterNotIn fs ns else .cons n o r t (filterNotIn fs ns)

/-- Flattened intersection of two field lists. -/
def mergeFields (fs gs : Fields) : Fields :=
  appendF (mergeLeftF fs gs) (filterNotIn gs (namesF fs))

/-- Models the intersection `T & U`.  Intersections of two object shapes
are flattened; an intersection of a type with itself is that type; other
combinations (never used by the utilities below) collapse to `never`. -/
def andTy : Ty → Ty → Ty
  | .obj fs, .obj gs => .obj (mergeFields fs gs)
  | a, b => if a = b then a else .never

/-- Source: `Intersect<T, U> = Pick<T, Extract<keyof T, keyof U>>`. -/
def Intersect (t u : Ty) : Ty := Pick t (Extract (keysOf t) (keysOf u))

/-- Source: `Except<T, U> = Pick<T, Exclude<keyof T, keyof U>>`. -/
def exceptTy (t u : Ty) : Ty := Pick t (Exclude (keysOf t) (keysOf u))

/-- Source: `TupleUnion<T> = T extends Array<infer U> ? U : never`.  A
mutable array matches with its element type; a mutable tuple matches with
the union of its member types; read-only arrays and tuples, and every
non-array type, fall to the `never` branch. -/
def TupleUnion : Ty → Ty
  | .arr false e => e
  | .tup false es => .union es
  | _ => .never

/-- A type that matches the pattern `Array<...>`: a mutable array or a
mutable tuple. -/
def isArrayLike : Ty → Bool
  | .arr false _ => true
  | .tup false _ => true
  | _ => false

/-- One alternative of `RequireAtLeastOne<T>` for the key `K`:
`Required<Pick<T, K>> & Partial<Pick<T, Exclude<keyof T, K>>>`. -/
def raloAlt (t : Ty) (k : String) : Ty :=
  andTy (Required (Pick t [k])) (PartialTy (Pick t (Exclude (keysOf t) [k])))

/-- Source: `RequireAtLeastOne<T>` is the union, over the keys `K` of `T`,
of `Required<Pick<T, K>> & Partial<Pick<T, Exclude<keyof T, K>>>`. -/
def RequireAtLeastOne (t : Ty) : Ty :=
  .union (listToTys ((keysOf t).map (raloAlt t)))

/-- Whether a parameter of this type accepts an argument of type `any[]`
(used for the single parameter `(args: any[])` of Promisify's bound). -/
def acceptsAnyArray : Ty → Bool
  | .any => true
  | .arr _ _ => true
  | .obj .nil => true
  | _ => false

/-- A parameter list is compatible with the single parameter
`(args: any[])`: at most one parameter, accepting an `any[]` argument. -/
def paramsOkForAnyArray : Tys → Bool
  | .nil => true
  | .cons p .nil => acceptsAnyArray p
  | _ => false

/-- Models the declared bound of Promisify:
`T extends (args: any[]) => Promise<any>`. -/
def promisifyConstraint : Ty → Bool
  | .func ps (.promise _) => paramsOkForAnyArray ps
  | _ => false

/-- Source: `Promisify<T> = T extends (args: any[]) => Promise<infer U> ?
U : never`.  The pattern matches a function whose parameters are
compatible with `(args: any[])` and whose return type is a promise, in
which case `U` is inferred as the promised type; otherwise the `never`
branch is taken. -/
def Promisify : Ty → Ty
  | .func ps (.promise u) => if paramsOkForAnyArray ps then u else .never
  | _ => .never

mutual
/-- Source: `DeepPartial<T> = {[P in keyof T]?: T[P] extends object ?
DeepPartial<T[P]> : T[P]}` (name suffixed in this embedding). -/
def DeepPartialTy : Ty → Ty
  | .obj fs => .obj (deepPartialF fs)
  | .arr ro e => .arr ro (if isObjLike e then DeepPartialTy e else e)
  | .tup ro es => .tup ro (deepPartialL es)
  | .func _ _ => .obj .nil
  | .promise _ => .obj .nil
  | .union ts => .union (deepPartialU ts)
  | t => t

/-- DeepPartial on a property list: makes each property optional and applies
the conditional template to its value. -/
def deepPartialF : Fields → Fields
  | .nil => .nil
  | .cons n _ r t fs =>
      .cons n true r (if isObjLike t then DeepPartialTy t else t) (deepPartialF fs)

/-- DeepPartial template mapped over tuple members. -/
def deepPartialL : Tys → Tys
  | .nil => .nil
  | .cons t ts => .cons (if isObjLike t then DeepPartialTy t else t) (deepPartialL ts)

/-- DeepPartial distributed over union members. -/
def deepPartialU : Tys → Tys
  | .nil => .nil
  | .cons t ts => .cons (DeepPartialTy t) (deepPartialU ts)
end

mutual
/-- Source: `DeepRequired<T> = {[P in keyof T]-?: T[P] extends object ?
DeepRequired<T[P]> : T[P]}`. -/
def DeepRequired : Ty → Ty
  | .obj fs => .obj (deepRequiredF fs)
  | .arr ro e => .arr ro (if isObjLike e then DeepRequired e else e)
  | .tup ro es => .tup ro (deepRequiredL es)
  | .func _ _ => .obj .nil
  | .promise _ => .obj .nil
  | .union ts => .union (deepRequiredU ts)
  | t => t

/-- DeepRequired on a property list. -/
def deepRequiredF : Fields → Fields
  | .nil => .nil
  | .cons n _ r t fs =>
      .cons n false r (if isObjLike t then DeepRequired t else t) (deepRequiredF fs)

/-- DeepRequired template mapped over tuple members. -/
def deepRequiredL : Tys → Tys
  | .nil => .nil
  | .cons t ts => .cons (if isObjLike t then DeepRequired t else t) (deepRequiredL ts)

/-- DeepRequired distributed over union members. -/
def deepRequiredU : Tys → Tys
  | .nil => .nil
  | .cons t ts => .cons (DeepRequired t) (deepRequiredU ts)
end

mutual
/-- Source: `DeepReadOnly<T> = {readonly [P in keyof T]: T[P] extends
object ? DeepReadOnly<T[P]> : T[P]}`. -/
def DeepReadOnly : Ty → Ty
  | .obj fs => .obj (deepReadOnlyF fs)
  | .arr _ e => .arr true (if isObjLike e then DeepReadOnly e else e)
  | .tup _ es => .tup true (deepReadOnlyL es)
  | .func _ _ => .obj .nil
  | .promise _ => .obj .nil
  | .union ts => .union (deepReadOnlyU ts)
  | t => t

/-- DeepReadOnly on a property list: forces read-only, keeps optionality. -/
def deepReadOnlyF : Fields → Fields
  | .nil => .nil
  | .cons n o _ t fs =>
      .cons n o true (if isObjLike t then DeepReadOnly t else t) (deepReadOnlyF fs)

/-- DeepReadOnly template mapped over tuple members. -/
def deepReadOnlyL : Tys → Tys
  | .nil => .nil
  | .cons t ts => .cons (if isObjLike t then DeepReadOnly t else t) (deepReadOnlyL ts)

/-- DeepReadOnly distributed over union members. -/
def deepReadOnlyU : Tys → Tys
  | .nil => .nil
  | .cons t ts => .cons (DeepReadOnly t) (deepReadOnlyU ts)
end

mutual
/-- Source: `DeepMutable<T> = {-readonly [P in keyof T]: T[P] extends
object ? DeepMutable<T[P]> : T[P]}`. -/
def DeepMutable : Ty → Ty
  | .obj fs => .obj (deepMutableF fs)
  | .arr _ e => .arr false (if isObjLike e then DeepMutable e else e)
  | .tup _ es => .tup false (deepMutableL es)
  | .func _ _ => .obj .nil
  | .promise _ => .obj .nil
  | .union ts => .union (deepMutableU ts)
  | t => t

/-- DeepMutable on a property list: strips read-only, keeps optionality. -/
def deepMutableF : Fields → Fields
  | .nil => .nil
  | .cons n o _ t fs =>
      .cons n o false (if isObjLike t then DeepMutable t else t) (deepMutableF fs)

/-- DeepMutable template mapped over tuple members. -/
def deepMutableL : Tys → Tys
  | .nil => .nil
  | .cons t ts => .cons (if isObjLike t then DeepMutable t else t) (deepMutableL ts)

/-- DeepMutable distributed over union members. -/
def deepMutableU : Tys → Tys
  | .nil => .nil
  | .cons t ts => .cons (DeepMutable t) (deepMutableU ts)
end

/-- Source: `ReadOnlyByKeys<T, U> = T & {readonly [P in U]: T[P]}`:
the mapped type inherits the modifiers of `T` (the constraint of `U` is
`keyof T`) and forces read-only on the keys in `U`. -/
def ReadOnlyByKeys (t : Ty) (ks : List String) : Ty :=
  andTy t (roForce (Pick t ks))

/-- Source: `MutableByKeys<T, U> = T & {readonly [P in U]: T[P]}` — the
source reproduces exactly the expression of `ReadOnlyByKeys`. -/
def MutableByKeys (t : Ty) (ks : List String) : Ty :=
  andTy t (roForce (Pick t ks))

/-- Source: `PickAllKeys<T> = {[P in keyof T]-?: P}[keyof T]`: the union
of all key names. -/
def PickAllKeys (t : Ty) : List String := keysOf t

/-- Models the assignability test `{} extends X`: the empty shape is
assignable to an object shape exactly when all its properties are
optional, and to `any`. -/
def emptyExtends : Ty → Bool
  | .obj fs => allOptF fs
  | .any => true
  | _ => false

/-- Source: `PickRequiredKeys<T> = {[P in keyof T]-?: {} extends
Pick<T, P> ? never : P}[keyof T]`. -/
def PickRequiredKeys (t : Ty) : List String :=
  (keysOf t).filter fun k => !emptyExtends (Pick t [k])

/-- Source: `PickPartialKeys<T> = {[P in keyof T]-?: {} extends
Pick<T, P> ? P : never}[keyof T]`. -/
def PickPartialKeys (t : Ty) : List String :=
  (keysOf t).filter fun k => emptyExtends (Pick t [k])

/-- Source: `Equal<T, U>` via the invariant conditional-type trick, which
holds exactly when the two types are structurally identical; modelled as
decidable identity of the embedding. -/
def Equal (t u : Ty) : Bool := decide (t = u)

/-- The single-key projection `{[Q in P]: T[Q]}` evaluated at a property
of `T`: the constraint `P` of `Q` is itself constrained to `keyof T`, so
the projection inherits the optionality and read-only modifiers of `T`. -/
def keyProj (n : String) (o r : Bool) (t : Ty) : Ty :=
  .obj (.cons n o r t .nil)

/-- Key selection of `PickReadOnlyKeys`: a key is kept when `Equal` holds
between its projection and the projection with read-only forced. -/
def roKeysF : Fields → List String
  | .nil => []
  | .cons n o r t fs =>
      if Equal (keyProj n o r t) (keyProj n o true t)
      then n :: roKeysF fs else roKeysF fs

/-- Key selection of `PickMutableKeys`: the same `Equal` test with the
branches swapped. -/
def mutKeysF : Fields → List String
  | .nil => []
  | .cons n o r t fs =>
      if Equal (keyProj n o r t) (keyProj n o true t)
      then mutKeysF fs else n :: mutKeysF fs

/-- Source: `PickReadOnlyKeys<T>` compares, for each key `P`, the single-key
projection with its read-only-forced version via `Equal`, keeping `P` when
they are identical. -/
def PickReadOnlyKeys (t : Ty) : List String := roKeysF (fieldsOf t)

/-- Source: `PickMutableKeys<T>` runs the same comparison and keeps `P` when
the projections differ. -/
def PickMutableKeys (t : Ty) : List String := mutKeysF (fieldsOf t)

mutual
/-- Shapes built only from primitives, literals, `undefined`, nested object
shapes with no read-only markers, and mutable arrays and tuples of such
shapes (the fragment on which the Deep read-only round trip is exact). -/
def plainMutable : Ty → Bool
  | .prim _ => true
  | .lit _ => true
  | .undef => true
  | .obj fs => plainMutableF fs
  | .arr ro e => !ro && plainMutable e
  | .tup ro es => !ro && plainMutableL es
  | _ => false

/-- Property lists of plain mutable shapes: no read-only markers, plain
mutable value types. -/
def plainMutableF : Fields → Bool
  | .nil => true
  | .cons _ _ r t fs => !r && plainMutable t && plainMutableF fs

/-- Type lists of plain mutable shapes. -/
def plainMutableL : Tys → Bool
  | .nil => true
  | .cons t ts => plainMutable t && plainMutableL ts
end

/-- The `Equal` test between a single-key projection and its read-only-forced
version reduces to the read-only flag of the property. -/
theorem equal_keyProj (n : String) (o r : Bool) (t : Ty) :
    Equal (keyProj n o r t) (keyProj n o true t) = r := by
  cases r <;> simp [Equal, keyProj]

/-- C1: for every object shape `T` and key subset `U` of its keys,
`MutableByKeys<T, U>` produces exactly the same type as
`ReadOnlyByKeys<T, U>` (the source reproduces the read-only-forcing
expression instead of stripping the marker). -/
theorem mutableByKeys_is_readOnlyByKeys (t : Ty) (ks : List String)
    (_hks : ∀ k ∈ ks, k ∈ keysOf t) :
    MutableByKeys t ks = ReadOnlyByKeys t ks := rfl

/-- Witness for C1 at the shape `{readonly name: string; readonly age: number}`
with `U = ["name"]`. -/
theorem mutableByKeys_is_readOnlyByKeys_w :
    (∀ k ∈ ["name"],
        k ∈ keysOf (.obj (.cons "name" false true (.prim "string")
          (.cons "age" false true (.prim "number") .nil)))) ∧
    MutableByKeys (.obj (.cons "name" false true (.prim "string")
        (.cons "age" false true (.prim "number") .nil))) ["name"] =
      ReadOnlyByKeys (.obj (.cons "name" false true (.prim "string")
        (.cons "age" false true (.prim "number") .nil))) ["name"] :=
  ⟨by decide,
   mutableByKeys_is_readOnlyByKeys
     (.obj (.cons "name" false true (.prim "string")
       (.cons "age" false true (.prim "number") .nil))) ["name"] (by decide)⟩

/-- C4: `Equal` is reflexive — `Equal<T, T>` is `true` for every type — and
distinguishes optionality: `Equal<{a: string}, {a?: string}>` is `false`. -/
theorem equal_refl_and_distinguishes_optionality :
    (∀ t : Ty, Equal t t = true) ∧
    Equal (.obj (.cons "a" false false (.prim "string") .nil))
          (.obj (.cons "a" true false (.prim "string") .nil)) = false :=
  ⟨fun t => by simp [Equal], by decide⟩

/-- C7: `TupleUnion` yields the element type of a mutable array, the union
of the member types of a mutable tuple, and `never` on every type that does
not match `Array<...>`; on the tuple `["a", "b", "c"]` it yields
`"a" | "b" | "c"`. -/
theorem tupleUnion_cases :
    (∀ t : Ty, isArrayLike t = false → TupleUnion t = .never) ∧
    (∀ e : Ty, TupleUnion (.arr false e) = e) ∧
    (∀ es : Tys, TupleUnion (.tup false es) = .union es) ∧
    TupleUnion (.tup false (.cons (.lit "a") (.cons (.lit "b")
        (.cons (.lit "c") .nil)))) =
      .union (.cons (.lit "a") (.cons (.lit "b") (.cons (.lit "c") .nil))) := by
  refine ⟨?_, fun e => rfl, fun es => rfl, rfl⟩
  intro t h
  cases t with
  | arr ro e =>
      cases ro with
      | false => simp [isArrayLike] at h
      | true => rfl
  | tup ro es =>
      cases ro with
      | false => simp [isArrayLike] at h
      | true => rfl
  | prim n => rfl
  | lit s => rfl
  | any => rfl
  | never => rfl
  | undef => rfl
  | obj fs => rfl
  | func ps r => rfl
  | promise u => rfl
  | union ts => rfl

/-- Witness for C7 at the non-array type `string`. -/
theorem tupleUnion_cases_w :
    isArrayLike (.prim "string") = false ∧ TupleUnion (.prim "string") = .never :=
  ⟨rfl, tupleUnion_cases.1 (.prim "string") rfl⟩

/-- C9: under Promisify's declared bound `T extends (args: any[]) =>
Promise<any>`, the conditional always matches: the result is the inferred
promised type, never the fallback `never` branch. -/
theorem promisify_constraint_no_fallback (t : Ty)
    (h : promisifyConstraint t = true) :
    ∃ ps u, t = .func ps (.promise u) ∧ Promisify t = u := by
  cases t <;> try simp [promisifyConstraint] at h
  case func ps r =>
    cases r <;> try simp [promisifyConstraint] at h
    case promise u =>
      have hp : paramsOkForAnyArray ps = true := by
        simpa [promisifyConstraint] using h
      exact ⟨ps, u, rfl, by simp [Promisify, hp]⟩

/-- Witness for C9 at `() => Promise<string>`. -/
theorem promisify_constraint_no_fallback_w :
    promisifyConstraint (.func .nil (.promise (.prim "string"))) = true ∧
    ∃ ps u, Ty.func .nil (.promise (.prim "string")) = .func ps (.promise u) ∧
      Promisify (.func .nil (.promise (.prim "string"))) = u :=
  ⟨by decide,
   promisify_constraint_no_fallback (.func .nil (.promise (.prim "string")))
     (by decide)⟩

/-- C10: the Deep utilities recurse into every property value that extends
`object`, functions included: `DeepPartial` on a shape with a function-typed
property maps over the function's empty own-key set and replaces it with the
empty shape, losing the call signature. -/
theorem deepPartial_collapses_function (ps : Tys) (r : Ty) :
    DeepPartialTy (.obj (.cons "f" false false (.func ps r) .nil)) =
      .obj (.cons "f" true false (.obj .nil) .nil) := rfl

/-- Picking from a shape whose head property is named outside the key list
ignores that property. -/
theorem pickFields_skip : ∀ (ks : List String) (n : String) (o r : Bool)
    (t : Ty) (fs : Fields), n ∉ ks →
    pickFields (.cons n o r t fs) ks = pickFields fs ks
  | [], _, _, _, _, _, _ => rfl
  | k :: ks, n, o, r, t, fs, h => by
      have hne : ¬ n = k := fun e => h (by simp [e])
      have hks : n ∉ ks := fun hm => h (List.mem_cons_of_mem _ hm)
      cases hf : findField fs k <;>
        simp [pickFields, findField, hne, hf, pickFields_skip ks n o r t fs hks]

/-- Picking all keys of a shape, in declaration order, rebuilds the shape. -/
theorem pick_self : ∀ fs : Fields, (namesF fs).Nodup →
    pickFields fs (namesF fs) = fs
  | .nil, _ => rfl
  | .cons n o r t fs, h => by
      have h1 : n ∉ namesF fs ∧ (namesF fs).Nodup := by
        simpa [namesF, List.nodup_cons] using h
      simp [namesF, pickFields, findField,
        pickFields_skip (namesF fs) n o r t fs h1.1, pick_self fs h1.2]

/-- C5: for every object shape `T` (with distinct property names),
`Intersect<T, T>` is structurally identical to `T` and `Except<T, T>` is
the empty shape. -/
theorem intersect_except_self (fs : Fields) (h : (namesF fs).Nodup) :
    Intersect (.obj fs) (.obj fs) = .obj fs ∧
    exceptTy (.obj fs) (.obj fs) = .obj .nil := by
  constructor
  · have he : Extract (namesF fs) (namesF fs) = namesF fs := by
      simp [Extract, List.filter_eq_self]
    simp [Intersect, Pick, keysOf, fieldsOf, he, pick_self fs h]
  · have he : Exclude (namesF fs) (namesF fs) = [] := by
      simp [Exclude]
    simp [exceptTy, Pick, keysOf, fieldsOf, he, pickFields]

/-- Witness for C5 at the shape `{name: string; age: number}`. -/
theorem intersect_except_self_w :
    (namesF (.cons "name" false false (.prim "string")
        (.cons "age" false false (.prim "number") .nil))).Nodup ∧
    Intersect (.obj (.cons "name" false false (.prim "string")
        (.cons "age" false false (.prim "number") .nil)))
      (.obj (.cons "name" false false (.prim "string")
        (.cons "age" false false (.prim "number") .nil))) =
      .obj (.cons "name" false false (.prim "string")
        (.cons "age" false false (.prim "number") .nil)) ∧
    exceptTy (.obj (.cons "name" false false (.prim "string")
        (.cons "age" false false (.prim "number") .nil)))
      (.obj (.cons "name" false false (.prim "string")
        (.cons "age" false false (.prim "number") .nil))) = .obj .nil :=
  ⟨by decide,
   (intersect_except_self (.cons "name" false false (.prim "string")
     (.cons "age" false false (.prim "number") .nil)) (by decide)).1,
   (intersect_except_self (.cons "name" false false (.prim "string")
     (.cons "age" false false (.prim "number") .nil)) (by decide)).2⟩

/-- C6: a key of `T` is in `PickRequiredKeys<T>` exactly when the empty
shape is not assignable to the single-key projection `Pick<T, K>`, and in
`PickPartialKeys<T>` exactly when it is; the assignability test itself
evaluates to the optionality flag of the key. -/
theorem requiredKeys_by_assignability (fs : Fields) (k : String)
    (hk : k ∈ PickAllKeys (.obj fs)) :
    (k ∈ PickRequiredKeys (.obj fs) ↔
      emptyExtends (Pick (.obj fs) [k]) = false) ∧
    (k ∈ PickPartialKeys (.obj fs) ↔
      emptyExtends (Pick (.obj fs) [k]) = true) ∧
    (∀ o r t, findField fs k = some (o, r, t) →
      emptyExtends (Pick (.obj fs) [k]) = o) := by
  refine ⟨?_, ?_, ?_⟩
  · simp only [PickRequiredKeys, List.mem_filter, Bool.not_eq_true']
    constructor
    · intro h1
      exact h1.2
    · intro h1
      exact ⟨hk, h1⟩
  · simp only [PickPartialKeys, List.mem_filter]
    constructor
    · intro h1
      exact h1.2
    · intro h1
      exact ⟨hk, h1⟩
  · intro o r t hf
    simp [Pick, fieldsOf, pickFields, hf, emptyExtends, allOptF]

/-- Witness for C6 at the shape `{name: string; age?: number}` with the key
`"age"`. -/
theorem requiredKeys_by_assignability_w :
    "age" ∈ PickAllKeys (.obj (.cons "name" false false (.prim "string")
        (.cons "age" true false (.prim "number") .nil))) ∧
    ("age" ∈ PickRequiredKeys (.obj (.cons "name" false false (.prim "string")
        (.cons "age" true false (.prim "number") .nil))) ↔
      emptyExtends (Pick (.obj (.cons "name" false false (.prim "string")
        (.cons "age" true false (.prim "number") .nil))) ["age"]) = false) :=
  ⟨by decide,
   (requiredKeys_by_assignability (.cons "name" false false (.prim "string")
     (.cons "age" true false (.prim "number") .nil)) "age" (by decide)).1⟩

mutual
/-- Applying `DeepReadOnly` preserves whether a type extends `object`. -/
theorem objLike_dro : ∀ t : Ty, isObjLike (DeepReadOnly t) = isObjLike t
  | .prim _ => rfl
  | .lit _ => rfl
  | .any => rfl
  | .never => rfl
  | .undef => rfl
  | .obj _ => rfl
  | .arr _ _ => rfl
  | .tup _ _ => rfl
  | .func _ _ => rfl
  | .promise _ => rfl
  | .union ts => by simp [DeepReadOnly, isObjLike, objLike_droU ts]

/-- Distributing `DeepReadOnly` over a union preserves `allObjLike`. -/
theorem objLike_droU : ∀ ts : Tys, allObjLike (deepReadOnlyU ts) = allObjLike ts
  | .nil => rfl
  | .cons t ts => by
      simp [deepReadOnlyU, allObjLike, objLike_dro t, objLike_droU ts]
end

/-- Composing the DeepReadOnly and DeepMutable conditional templates is the
identity on a value whose full round trip is the identity. -/
theorem templateRound (t : Ty) (ht : DeepMutable (DeepReadOnly t) = t) :
    (if isObjLike (if isObjLike t then DeepReadOnly t else t)
      then DeepMutable (if isObjLike t then DeepReadOnly t else t)
      else (if isObjLike t then DeepReadOnly t else t)) = t := by
  cases h : isObjLike t
  · simp [h]
  · simp [h, objLike_dro, ht]

mutual
/-- Round trip of the Deep read-only marking on plain mutable shapes. -/
theorem roundTy : ∀ t : Ty, plainMutable t = true →
    DeepMutable (DeepReadOnly t) = t
  | .prim _, _ => rfl
  | .lit _, _ => rfl
  | .undef, _ => rfl
  | .any, h => by simp [plainMutable] at h
  | .never, h => by simp [plainMutable] at h
  | .func _ _, h => by simp [plainMutable] at h
  | .promise _, h => by simp [plainMutable] at h
  | .union _, h => by simp [plainMutable] at h
  | .obj fs, h => by
      have hf : plainMutableF fs = true := by simpa [plainMutable] using h
      simp [DeepReadOnly, DeepMutable, roundF fs hf]
  | .arr ro e, h => by
      have h1 : ro = false ∧ plainMutable e = true := by
        simpa [plainMutable, Bool.and_eq_true] using h
      have h2 := templateRound e (roundTy e h1.2)
      simp [DeepReadOnly, DeepMutable, h1.1, h2]
  | .tup ro es, h => by
      have h1 : ro = false ∧ plainMutableL es = true := by
        simpa [plainMutable, Bool.and_eq_true] using h
      simp [DeepReadOnly, DeepMutable, h1.1, roundL es h1.2]

/-- Round trip on the property lists of plain mutable shapes. -/
theorem roundF : ∀ fs : Fields, plainMutableF fs = true →
    deepMutableF (deepReadOnlyF fs) = fs
  | .nil, _ => rfl
  | .cons n o r t fs, h => by
      obtain ⟨⟨hr, ht⟩, hfs⟩ :
          ((!r) = true ∧ plainMutable t = true) ∧ plainMutableF fs = true := by
        simpa [plainMutableF, Bool.and_eq_true] using h
      have hr' : r = false := by simpa using hr
      have h2 := templateRound t (roundTy t ht)
      simp [deepReadOnlyF, deepMutableF, hr', h2, roundF fs hfs]

/-- Round trip on the member lists of plain mutable tuples. -/
theorem roundL : ∀ ts : Tys, plainMutableL ts = true →
    deepMutableL (deepReadOnlyL ts) = ts
  | .nil, _ => rfl
  | .cons t ts, h => by
      obtain ⟨ht, hts⟩ : plainMutable t = true ∧ plainMutableL ts = true := by
        simpa [plainMutableL, Bool.and_eq_true] using h
      have h2 := templateRound t (roundTy t ht)
      simp [deepReadOnlyL, deepMutableL, h2, roundL ts hts]
end

/-- Counterexample for C2: the round trip fails on a shape with a
function-typed property (the function collapses to the empty shape) and on
a shape with a read-only property (the marker is stripped, not restored). -/
theorem deepRoundtrip_cex :
    (¬ DeepMutable (DeepReadOnly (.obj (.cons "f" false false
        (.func .nil (.prim "void")) .nil))) =
      .obj (.cons "f" false false (.func .nil (.prim "void")) .nil)) ∧
    (¬ DeepMutable (DeepReadOnly (.obj (.cons "a" false true
        (.prim "string") .nil))) =
      .obj (.cons "a" false true (.prim "string") .nil)) := by decide

/-- C2 (amended): `DeepMutable<DeepReadOnly<T>>` is structurally identical
to `T` for every shape built from primitives, literals, `undefined`,
read-only-free nested object shapes and mutable arrays and tuples of such
values; shapes with function- or promise-typed property values, or with
pre-existing read-only markers, do not round-trip. -/
theorem deepMutable_deepReadOnly_roundtrip (t : Ty)
    (h : plainMutable t = true) : DeepMutable (DeepReadOnly t) = t :=
  roundTy t h

/-- Witness for C2 at `{value: string; next: {data: number}; xs: number[]}`. -/
theorem deepMutable_deepReadOnly_roundtrip_w :
    plainMutable (.obj (.cons "value" false false (.prim "string")
        (.cons "next" false false
          (.obj (.cons "data" false false (.prim "number") .nil))
          (.cons "xs" false false (.arr false (.prim "number")) .nil)))) = true ∧
    DeepMutable (DeepReadOnly (.obj (.cons "value" false false (.prim "string")
        (.cons "next" false false
          (.obj (.cons "data" false false (.prim "number") .nil))
          (.cons "xs" false false (.arr false (.prim "number")) .nil))))) =
      .obj (.cons "value" false false (.prim "string")
        (.cons "next" false false
          (.obj (.cons "data" false false (.prim "number") .nil))
          (.cons "xs" false false (.arr false (.prim "number")) .nil))) :=
  ⟨by decide,
   deepMutable_deepReadOnly_roundtrip
     (.obj (.cons "value" false false (.prim "string")
       (.cons "next" false false
         (.obj (.cons "data" false false (.prim "number") .nil))
         (.cons "xs" false false (.arr false (.prim "number")) .nil))))
     (by decide)⟩

/-- Keys selected as read-only are keys of the shape. -/
theorem roKeysF_sub : ∀ (fs : Fields) (k : String),
    k ∈ roKeysF fs → k ∈ namesF fs
  | .nil, k, hk => by simp [roKeysF] at hk
  | .cons n o r t fs, k, hk => by
      cases r with
      | false =>
          simp [roKeysF, equal_keyProj] at hk
          simp only [namesF, List.mem_cons]
          exact Or.inr (roKeysF_sub fs k hk)
      | true =>
          simp [roKeysF, equal_keyProj] at hk
          simp only [namesF, List.mem_cons]
          rcases hk with h | h
          · exact Or.inl h
          · exact Or.inr (roKeysF_sub fs k h)

/-- Keys selected as mutable are keys of the shape. -/
theorem mutKeysF_sub : ∀ (fs : Fields) (k : String),
    k ∈ mutKeysF fs → k ∈ namesF fs
  | .nil, k, hk => by simp [mutKeysF] at hk
  | .cons n o r t fs, k, hk => by
      cases r with
      | true =>
          simp [mutKeysF, equal_keyProj] at hk
          simp only [namesF, List.mem_cons]
          exact Or.inr (mutKeysF_sub fs k hk)
      | false =>
          simp [mutKeysF, equal_keyProj] at hk
          simp only [namesF, List.mem_cons]
          rcases hk with h | h
          · exact Or.inl h
          · exact Or.inr (mutKeysF_sub fs k h)

/-- Every key of the shape is selected as read-only or as mutable. -/
theorem keys_cover : ∀ (fs : Fields) (k : String),
    (k ∈ roKeysF fs ∨ k ∈ mutKeysF fs) ↔ k ∈ namesF fs
  | .nil, k => by simp [roKeysF, mutKeysF, namesF]
  | .cons n o r t fs, k => by
      cases r <;>
        simp [roKeysF, mutKeysF, namesF, equal_keyProj,
          or_assoc, or_left_comm, keys_cover fs k]

/-- With distinct property names, no key is selected both as read-only and
as mutable. -/
theorem keys_disjoint : ∀ (fs : Fields) (k : String), (namesF fs).Nodup →
    ¬(k ∈ roKeysF fs ∧ k ∈ mutKeysF fs)
  | .nil, k, _ => by simp [roKeysF, mutKeysF]
  | .cons n o r t fs, k, h => by
      have h1 : n ∉ namesF fs ∧ (namesF fs).Nodup := by
        simpa [namesF, List.nodup_cons] using h
      cases r with
      | true =>
          intro hc
          rcases hc with ⟨h2, h3⟩
          simp [roKeysF, equal_keyProj] at h2
          simp [mutKeysF, equal_keyProj] at h3
          rcases h2 with rfl | h2
          · exact h1.1 (mutKeysF_sub fs _ h3)
          · exact keys_disjoint fs k h1.2 ⟨h2, h3⟩
      | false =>
          intro hc
          rcases hc with ⟨h2, h3⟩
          simp [roKeysF, equal_keyProj] at h2
          simp [mutKeysF, equal_keyProj] at h3
          rcases h3 with rfl | h3
          · exact h1.1 (roKeysF_sub fs _ h2)
          · exact keys_disjoint fs k h1.2 ⟨h2, h3⟩

/-- C3: for every object shape (with distinct property names),
`PickReadOnlyKeys<T>` and `PickMutableKeys<T>` are disjoint and their union
is `PickAllKeys<T>`: every key is classified as exactly one of read-only or
mutable. -/
theorem readOnly_mutable_keys_partition (fs : Fields)
    (h : (namesF fs).Nodup) :
    (∀ k, ¬(k ∈ PickReadOnlyKeys (.obj fs) ∧ k ∈ PickMutableKeys (.obj fs))) ∧
    (∀ k, (k ∈ PickReadOnlyKeys (.obj fs) ∨ k ∈ PickMutableKeys (.obj fs)) ↔
      k ∈ PickAllKeys (.obj fs)) := by
  constructor
  · intro k
    simpa [PickReadOnlyKeys, PickMutableKeys, fieldsOf] using
      keys_disjoint fs k h
  · intro k
    simpa [PickReadOnlyKeys, PickMutableKeys, PickAllKeys, keysOf, fieldsOf]
      using keys_cover fs k

/-- Witness for C3 at the shape `{readonly name: string; age: number}`. -/
theorem readOnly_mutable_keys_partition_w :
    (namesF (.cons "name" false true (.prim "string")
        (.cons "age" false false (.prim "number") .nil))).Nodup ∧
    (("name" ∈ PickReadOnlyKeys (.obj (.cons "name" false true (.prim "string")
          (.cons "age" false false (.prim "number") .nil))) ∨
        "name" ∈ PickMutableKeys (.obj (.cons "name" false true (.prim "string")
          (.cons "age" false false (.prim "number") .nil)))) ↔
      "name" ∈ PickAllKeys (.obj (.cons "name" false true (.prim "string")
        (.cons "age" false false (.prim "number") .nil)))) :=
  ⟨by decide,
   (readOnly_mutable_keys_partition (.cons "name" false true (.prim "string")
     (.cons "age" false false (.prim "number") .nil)) (by decide)).2 "name"⟩

/-- C8: on `A = {name: string; age: number}`, `RequireAtLeastOne<A>` is the
two-alternative union whose first member is exactly the flattened
`{name: string; age?: number}` and whose second member is the flattened
`{name?: string; age: number}` up to property order. -/
theorem requireAtLeastOne_nameAge :
    RequireAtLeastOne (.obj (.cons "name" false false (.prim "string")
        (.cons "age" false false (.prim "number") .nil))) =
      .union (.cons (.obj (.cons "name" false false (.prim "string")
          (.cons "age" true false (.prim "number") .nil)))
        (.cons (.obj (.cons "age" false false (.prim "number")
          (.cons "name" true false (.prim "string") .nil))) .nil)) ∧
    (fieldsToList (.cons "age" false false (.prim "number")
        (.cons "name" true false (.prim "string") .nil))).Perm
      (fieldsToList (.cons "name" true false (.prim "string")
        (.cons "age" false false (.prim "number") .nil))) := by decide

/-- Witness for C4: reflexivity of `Equal` evaluated at a concrete shape. -/
theorem equal_refl_and_distinguishes_optionality_w :
    Equal (.obj (.cons "name" false false (.prim "string") .nil))
      (.obj (.cons "name" false false (.prim "string") .nil)) = true :=
  equal_refl_and_distinguishes_optionality.1
    (.obj (.cons "name" false false (.prim "string") .nil))

/-- Witness for C10 at the property type `() => void`. -/
theorem deepPartial_collapses_function_w :
    DeepPartialTy (.obj (.cons "f" false false
        (.func .nil (.prim "void")) .nil)) =
      .obj (.cons "f" true false (.obj .nil) .nil) :=
  deepPartial_collapses_function .nil (.prim "void")

end ToolTypes
